import Mathlib

/-!
Verification of the lock-free pool-backed containers (pool, stack, MPMC queue,
MPSC queue) of the Lockfreedom repository, against its specification.

The C++ code is shallowly embedded as sequential (single-threaded) state
transformers: every CAS loop succeeds on its first iteration because no other
thread intervenes, which is exactly the semantics the single-threaded and
quiescent-state claims are about.  Machine integers are modelled as Nat with
explicit reductions modulo the width of the corresponding C++ type.

Memory is modelled per container: the pool tracks each slot's free-list node
(the tIndexTag stored in a vacant slot), and each container additionally tracks
the node payloads stored in the same slots.  A slot's bytes alternate between
the two views in the C++ code; the sequential traces verified here never read
a view that has been overwritten, so the two parallel views are faithful.
-/

/-- One free-list link as stored in the pool: an index into the storage plus
the ABA tag (struct tIndexTag of cLockFreePool). -/
structure tIndexTag where
  mIdx : Nat
  mTag : Nat
deriving DecidableEq, Repr

/-- A vacant pool slot reinterpreted as a free-list node (struct tNode). -/
structure tNode where
  mNext : tIndexTag
deriving DecidableEq, Repr

/-- State of cLockFreePool.  width is the number of values of the index type
tIndex: 2^32 when sizeof T is at least 8 bytes, otherwise 2^16.  slots is the
storage viewed through GetNode, one tNode per slot. -/
structure cLockFreePool where
  width : Nat
  mCapacity : Nat
  mHead : tIndexTag
  slots : List tNode
deriving DecidableEq, Repr

namespace cLockFreePool

/-- NULL_IDX = numeric_limits of tIndex .max, i.e. the all-ones index. -/
def NULL_IDX (p : cLockFreePool) : Nat := p.width - 1

/-- IsNull tests index >= mCapacity (as in the source, not equality with NULL_IDX). -/
def IsNull (p : cLockFreePool) (index : Nat) : Prop := p.mCapacity ≤ index

instance instDecIsNull (p : cLockFreePool) (i : Nat) : Decidable (p.IsNull i) :=
  inferInstanceAs (Decidable (p.mCapacity ≤ i))

/-- GetNode: read the free-list node stored in a slot. -/
def GetNode (p : cLockFreePool) (index : Nat) : tNode := p.slots.getD index ⟨⟨0, 0⟩⟩

/-- Write a slot's free-list node (the effect of assigning through GetNode). -/
def setNode (p : cLockFreePool) (index : Nat) (n : tNode) : cLockFreePool :=
  { p with slots := p.slots.set index n }

/-- AcquireIdx, sequential semantics: the compare_exchange succeeds on the first
iteration.  Returns NULL_IDX and leaves the pool unchanged when the head is null;
otherwise pops the head slot and bumps the tag (modulo the tag width). -/
def AcquireIdx (p : cLockFreePool) : Nat × cLockFreePool :=
  if p.IsNull p.mHead.mIdx then
    (p.NULL_IDX, p)
  else
    let node := p.GetNode p.mHead.mIdx
    let next := node.mNext
    let tmp : tIndexTag := ⟨next.mIdx, (p.mHead.mTag + 1) % p.width⟩
    (p.mHead.mIdx, { p with mHead := tmp })

/-- ReleaseIdx, sequential semantics: writes the released slot's next index to
the current head index (leaving the slot's stored tag alone) and swings the head
to the released index, keeping the head's tag. -/
def ReleaseIdx (p : cLockFreePool) (index : Nat) : cLockFreePool :=
  if p.IsNull index then
    p
  else
    let p1 := p.setNode index ⟨⟨p.mHead.mIdx, (p.GetNode index).mNext.mTag⟩⟩
    { p1 with mHead := ⟨index, p.mHead.mTag⟩ }

/-- AcquirePtr: a pointer is modelled as the slot index it addresses. -/
def AcquirePtr (p : cLockFreePool) : Option Nat × cLockFreePool :=
  let r := p.AcquireIdx
  if r.1 ≠ p.NULL_IDX then (some r.1, r.2) else (none, r.2)

/-- ReleasePtr: the argument is the pointer difference ptr - mStorage; the
static_cast to tIndex truncates it modulo the index width. -/
def ReleasePtr (p : cLockFreePool) (d : Int) : cLockFreePool :=
  let idx : Nat := (d % (p.width : Int)).toNat
  p.ReleaseIdx idx

/-- ReleaseAllPtrs: resets the head, then for each slot clears its node and
releases it through ReleasePtr (the pointer difference of slot i is i). -/
def ReleaseAllPtrs (p : cLockFreePool) : cLockFreePool :=
  let p0 := { p with mHead := ⟨p.NULL_IDX, 0⟩ }
  (List.range p.mCapacity).foldl
    (fun q i => (q.setNode i ⟨⟨q.NULL_IDX, 0⟩⟩).ReleasePtr (Int.ofNat i)) p0

/-- AllocateStorage: clamps the requested capacity to
numeric_limits of tIndex .max - 1 (that is width - 1 - 1), allocates the slab
(modelled as a list of junk-valued nodes) and calls ReleaseAllPtrs.  The list
contents before ReleaseAllPtrs model uninitialized memory; they are overwritten
before any read. -/
def AllocateStorage (width requested_capacity : Nat) : cLockFreePool :=
  let max_capacity := width - 1 - 1
  let cap := min requested_capacity max_capacity
  ReleaseAllPtrs ⟨width, cap, ⟨width - 1, 0⟩, List.replicate cap ⟨⟨0, 0⟩⟩⟩

/-- Empty: IsNull of the head index. -/
def Empty (p : cLockFreePool) : Bool := decide (p.IsNull p.mHead.mIdx)

def GetCapacity (p : cLockFreePool) : Nat := p.mCapacity

/-- The loop body of Full: walk up to the remaining-iteration count along next
links, failing as soon as a null index is seen. -/
def FullFrom (p : cLockFreePool) : Nat → tIndexTag → Bool
  | 0, _ => true
  | k + 1, cur => if p.IsNull cur.mIdx then false else p.FullFrom k (p.GetNode cur.mIdx).mNext

/-- Full: O(N) walk of mCapacity next links starting at the head. -/
def Full (p : cLockFreePool) : Bool := p.FullFrom p.mCapacity p.mHead

end cLockFreePool

/-- The cLockFreePool constructor: head initialised to (NULL_IDX, 0), then
AllocateStorage(n). -/
def mkPool (width n : Nat) : cLockFreePool := cLockFreePool.AllocateStorage width n

/-- The modulus of the 16-bit tag field of tTaggedPtr (its tTag type is uint16). -/
def tagMod : Nat := 2 ^ 16

/-- tTaggedPtr: a pointer (modelled as an optional pool-slot index) packed with
a 16-bit tag.  The field names mirror the accessors GetPtr and GetTag. -/
structure tTaggedPtr where
  GetPtr : Option Nat
  GetTag : Nat
deriving DecidableEq, Repr

/-- tLockFreeStackNode: the payload and the tagged pointer to the node below. -/
structure tLockFreeStackNode where
  mData : Int
  mPrev : tTaggedPtr
deriving DecidableEq, Repr

/-- State of cLockFreeStack over a shared pool.  nodes is the pool's storage
viewed as stack nodes (the view of a slot that holds a constructed element). -/
structure cLockFreeStack where
  mNodePool : cLockFreePool
  nodes : List tLockFreeStackNode
  mTop : tTaggedPtr
deriving DecidableEq, Repr

namespace cLockFreeStack

def getNode (s : cLockFreeStack) (i : Nat) : tLockFreeStackNode :=
  s.nodes.getD i ⟨0, ⟨none, 0⟩⟩

def setNode (s : cLockFreeStack) (i : Nat) (nd : tLockFreeStackNode) : cLockFreeStack :=
  { s with nodes := s.nodes.set i nd }

/-- LinkTopNodeAtomically, sequential semantics: the new node's mPrev is set to
the current top, and the CAS (which succeeds at once) installs the new node
carrying the tag that was read from the old top. -/
def LinkTopNodeAtomically (s : cLockFreeStack) (new_node : Nat) : cLockFreeStack :=
  let s1 := s.setNode new_node { s.getNode new_node with mPrev := s.mTop }
  let new_node_ptr : tTaggedPtr := ⟨some new_node, (s1.getNode new_node).mPrev.GetTag⟩
  { s1 with mTop := new_node_ptr }

/-- Push: Acquire constructs a stack node (mData from the argument, mPrev
default-constructed to the null tagged pointer), then links it at the top.
Returns false when the pool is exhausted. -/
def Push (s : cLockFreeStack) (v : Int) : Bool × cLockFreeStack :=
  match s.mNodePool.AcquirePtr with
  | (none, p1) => (false, { s with mNodePool := p1 })
  | (some idx, p1) =>
      let s1 := { s with mNodePool := p1 }
      let s2 := s1.setNode idx ⟨v, ⟨none, 0⟩⟩
      (true, s2.LinkTopNodeAtomically idx)

/-- Pop, sequential semantics: the out-parameter is threaded explicitly (its
value enters as result and the returned Int is its value when Pop returns;
the empty path performs no write to it).  On success the new top carries the
popped node's mPrev pointer and the old tag + 1 truncated to 16 bits, the data
is moved out, and the node is released to the pool. -/
def Pop (s : cLockFreeStack) (result : Int) : Bool × cLockFreeStack × Int :=
  let old_top := s.mTop
  match old_top.GetPtr with
  | none => (false, s, result)
  | some i =>
      let new_top : tTaggedPtr := ⟨(s.getNode i).mPrev.GetPtr, (old_top.GetTag + 1) % tagMod⟩
      let s1 := { s with mTop := new_top }
      let res := (s1.getNode i).mData
      (true, { s1 with mNodePool := s1.mNodePool.ReleasePtr (Int.ofNat i) }, res)

def Empty (s : cLockFreeStack) : Bool := s.mTop.GetPtr.isNone

end cLockFreeStack

/-- The cLockFreeStack constructor: top stored as the null tagged pointer.  The
node view of the storage starts as junk that is overwritten before being read. -/
def mkStack (pool : cLockFreePool) : cLockFreeStack :=
  { mNodePool := pool
    nodes := List.replicate pool.mCapacity ⟨0, ⟨none, 0⟩⟩
    mTop := ⟨none, 0⟩ }

/-- tLockFreeQueueNode: aligned storage for the payload (uninitialized until
SetData runs) and an atomic tagged pointer towards the newer node. -/
structure tLockFreeQueueNode where
  mData : Int
  mPrev : tTaggedPtr
deriving DecidableEq, Repr

/-- State of the MPMC cLockFreeQueue over a shared pool. -/
structure cLockFreeQueue where
  mNodePool : cLockFreePool
  qnodes : List tLockFreeQueueNode
  mFront : tTaggedPtr
  mBack : tTaggedPtr
deriving DecidableEq, Repr

namespace cLockFreeQueue

/-- Dereference a node pointer.  A null or out-of-range pointer yields a junk
node; the C++ would be undefined behaviour there and no verified trace reads
through such a pointer. -/
def getNode (q : cLockFreeQueue) (x : Option Nat) : tLockFreeQueueNode :=
  match x with
  | none => ⟨0, ⟨none, 0⟩⟩
  | some i => q.qnodes.getD i ⟨0, ⟨none, 0⟩⟩

def setNode (q : cLockFreeQueue) (x : Option Nat) (nd : tLockFreeQueueNode) : cLockFreeQueue :=
  match x with
  | none => q
  | some i => { q with qnodes := q.qnodes.set i nd }

/-- AcquireNewNode: AcquirePtr then placement-new of a default tElement, whose
constructor nulls mPrev and leaves mData unconstructed. -/
def AcquireNewNode (q : cLockFreeQueue) : Option Nat × cLockFreeQueue :=
  match q.mNodePool.AcquirePtr with
  | (none, p1) => (none, { q with mNodePool := p1 })
  | (some i, p1) =>
      let q1 := { q with mNodePool := p1 }
      (some i, q1.setNode (some i) { q1.getNode (some i) with mPrev := ⟨none, 0⟩ })

/-- LinkBackNodeAtomically: acquire a fresh sentinel, exchange it into mBack
(the fresh tagged pointer carries tag 0, the constructor default), construct the
pushed value in the old back node, then publish by storing the old back's mPrev. -/
def LinkBackNodeAtomically (q : cLockFreeQueue) (v : Int) : Bool × cLockFreeQueue :=
  match q.AcquireNewNode with
  | (none, q1) => (false, q1)
  | (some new_node, q1) =>
      let new_back : tTaggedPtr := ⟨some new_node, 0⟩
      let old_back := q1.mBack
      let q2 := { q1 with mBack := new_back }
      let q3 := q2.setNode old_back.GetPtr { q2.getNode old_back.GetPtr with mData := v }
      let q4 := q3.setNode old_back.GetPtr { q3.getNode old_back.GetPtr with mPrev := new_back }
      (true, q4)

def Push (q : cLockFreeQueue) (v : Int) : Bool × cLockFreeQueue := q.LinkBackNodeAtomically v

/-- Pop, sequential semantics (the front CAS succeeds at once).  The out
parameter is threaded explicitly; the empty path does not write it.  On success
the front advances to the old front's mPrev with the tag bumped modulo 2^16,
the data is moved out of the old front, and its slot is released. -/
def Pop (q : cLockFreeQueue) (result : Int) : Bool × cLockFreeQueue × Int :=
  let old_front := q.mFront
  let old_front_prev := (q.getNode old_front.GetPtr).mPrev
  match old_front.GetPtr, old_front_prev.GetPtr with
  | _, none => (false, q, result)
  | none, some _ => (false, q, result)
  | some fi, some pidx =>
      let new_front : tTaggedPtr := ⟨some pidx, (old_front.GetTag + 1) % tagMod⟩
      let q1 := { q with mFront := new_front }
      let res := (q1.getNode (some fi)).mData
      (true, { q1 with mNodePool := q1.mNodePool.ReleasePtr (Int.ofNat fi) }, res)

/-- Empty: the front node's mPrev is null. -/
def Empty (q : cLockFreeQueue) : Bool := (q.getNode q.mFront.GetPtr).mPrev.GetPtr.isNone

end cLockFreeQueue

/-- The cLockFreeQueue constructor: acquires the initial sentinel and stores it
(with tag 0) into both mFront and mBack. -/
def mkQueue (pool : cLockFreePool) : cLockFreeQueue :=
  let q0 : cLockFreeQueue :=
    ⟨pool, List.replicate pool.mCapacity ⟨0, ⟨none, 0⟩⟩, ⟨none, 0⟩, ⟨none, 0⟩⟩
  match q0.AcquireNewNode with
  | (d, q1) => { q1 with mFront := ⟨d, 0⟩, mBack := ⟨d, 0⟩ }

/-- tMPSCLockFreeQueueNode: constructed payload plus a plain (untagged) atomic
pointer towards the newer node. -/
structure tMPSCLockFreeQueueNode where
  mData : Int
  mPrev : Option Nat
deriving DecidableEq, Repr

/-- State of cMPSCLockFreeQueue.  mFront is the single consumer's non-atomic
pointer; it is an Option only to give the model a value before construction. -/
structure cMPSCLockFreeQueue where
  mNodePool : cLockFreePool
  mnodes : List tMPSCLockFreeQueueNode
  mBack : Option Nat
  mFront : Option Nat
deriving DecidableEq, Repr

namespace cMPSCLockFreeQueue

def getNode (m : cMPSCLockFreeQueue) (x : Option Nat) : tMPSCLockFreeQueueNode :=
  match x with
  | none => ⟨0, none⟩
  | some i => m.mnodes.getD i ⟨0, none⟩

def setNode (m : cMPSCLockFreeQueue) (x : Option Nat) (nd : tMPSCLockFreeQueueNode) :
    cMPSCLockFreeQueue :=
  match x with
  | none => m
  | some i => { m with mnodes := m.mnodes.set i nd }

/-- AcquireNewNode(args): Pool.Acquire, which constructs the node in place:
mData from the argument, mPrev null. -/
def AcquireNewNode (m : cMPSCLockFreeQueue) (v : Int) : Option Nat × cMPSCLockFreeQueue :=
  match m.mNodePool.AcquirePtr with
  | (none, p1) => (none, { m with mNodePool := p1 })
  | (some i, p1) =>
      let m1 := { m with mNodePool := p1 }
      (some i, m1.setNode (some i) ⟨v, none⟩)

/-- LinkBackNodeAtomically: one exchange on mBack, then the publishing store to
the old back's mPrev. -/
def LinkBackNodeAtomically (m : cMPSCLockFreeQueue) (v : Int) : Bool × cMPSCLockFreeQueue :=
  match m.AcquireNewNode v with
  | (none, m1) => (false, m1)
  | (some new_node, m1) =>
      let old_back := m1.mBack
      let m2 := { m1 with mBack := some new_node }
      (true, m2.setNode old_back { m2.getNode old_back with mPrev := some new_node })

def Push (m : cMPSCLockFreeQueue) (v : Int) : Bool × cMPSCLockFreeQueue :=
  m.LinkBackNodeAtomically v

/-- Pop (single consumer): reads the front's mPrev; on null returns false
without writing the out-parameter, otherwise advances the front, moves the data
out of the popped node, and releases the old front. -/
def Pop (m : cMPSCLockFreeQueue) (result : Int) : Bool × cMPSCLockFreeQueue × Int :=
  let old_front := m.mFront
  match (m.getNode old_front).mPrev with
  | none => (false, m, result)
  | some node_to_pop =>
      let m1 := { m with mFront := some node_to_pop }
      let res := (m1.getNode (some node_to_pop)).mData
      match old_front with
      | none => (false, m, result)
      | some fi => (true, { m1 with mNodePool := m1.mNodePool.ReleasePtr (Int.ofNat fi) }, res)

/-- Empty: the front node's mPrev is null. -/
def Empty (m : cMPSCLockFreeQueue) : Bool := (m.getNode m.mFront).mPrev.isNone

end cMPSCLockFreeQueue

/-- The cMPSCLockFreeQueue constructor: acquires a default-constructed sentinel
(payload int() = 0) and points both mFront and mBack at it. -/
def mkMPSCQueue (pool : cLockFreePool) : cMPSCLockFreeQueue :=
  let m0 : cMPSCLockFreeQueue := ⟨pool, List.replicate pool.mCapacity ⟨0, none⟩, none, none⟩
  match m0.AcquireNewNode 0 with
  | (s, m1) => { m1 with mFront := s, mBack := s }

/-!  Concrete single-threaded scenario states.  A stack node over int holds a
4-byte payload and an 8-byte tagged pointer, so sizeof is at least 8 and the
pool's index type is uint32: width = 2^32.  The same holds for both queue node
types. -/

/-- Pool of capacity 3 feeding the stack scenario. -/
def stackDemoPool : cLockFreePool := mkPool (2 ^ 32) 3

def stackDemo0 : cLockFreeStack := mkStack stackDemoPool

def stackDemo1 : cLockFreeStack := (stackDemo0.Push 42).2

def stackDemo2 : cLockFreeStack := (stackDemo1.Push 666).2

def stackDemo3 : cLockFreeStack := (stackDemo2.Push 1337).2

def stackDemoPop1 : Bool × cLockFreeStack × Int := stackDemo3.Pop 0

def stackDemoPop2 : Bool × cLockFreeStack × Int := stackDemoPop1.2.1.Pop 0

def stackDemoPop3 : Bool × cLockFreeStack × Int := stackDemoPop2.2.1.Pop 0

def stackDemoPop4 : Bool × cLockFreeStack × Int := stackDemoPop3.2.1.Pop 0

/-- Pool of capacity 3 + 1 (the sentinel) feeding the MPMC queue scenario. -/
def queueDemoPool : cLockFreePool := mkPool (2 ^ 32) (3 + 1)

def queueDemo0 : cLockFreeQueue := mkQueue queueDemoPool

def queueDemo1 : cLockFreeQueue := (queueDemo0.Push 42).2

def queueDemo2 : cLockFreeQueue := (queueDemo1.Push 666).2

def queueDemo3 : cLockFreeQueue := (queueDemo2.Push 1337).2

def queueDemoPop1 : Bool × cLockFreeQueue × Int := queueDemo3.Pop 0

def queueDemoPop2 : Bool × cLockFreeQueue × Int := queueDemoPop1.2.1.Pop 0

def queueDemoPop3 : Bool × cLockFreeQueue × Int := queueDemoPop2.2.1.Pop 0

def queueDemoPop4 : Bool × cLockFreeQueue × Int := queueDemoPop3.2.1.Pop 0

/-- The slot contents after the first k iterations of the construction loop of
ReleaseAllPtrs on a pool of the given width and capacity: slot 0 links to
NULL_IDX, slot i links to i - 1, and slots not yet visited still hold the junk
initial value. -/
def initSlots (width cap k : Nat) : List tNode :=
  (List.range cap).map fun i =>
    if i < k then ⟨⟨if i = 0 then width - 1 else i - 1, 0⟩⟩ else ⟨⟨0, 0⟩⟩

/-- The slots reachable from a given index by following mNext indices: the
chain steps only through non-null indices and ends at the literal NULL_IDX. -/
inductive FreeChain (p : cLockFreePool) : Nat → List Nat → Prop
  | nil : FreeChain p p.NULL_IDX []
  | cons (i : Nat) (rest : List Nat) (hi : i < p.mCapacity)
      (hrest : FreeChain p (p.GetNode i).mNext.mIdx rest) : FreeChain p i (i :: rest)

/-- Pool states reachable by legal sequences of Acquire and Release starting
from a freshly constructed pool.  The Nat list accumulates the outstanding
acquired slot indices; Release may only be called on an outstanding slot, per
its documented precondition. -/
inductive Reachable (width n : Nat) : cLockFreePool → List Nat → Prop
  | init : Reachable width n (mkPool width n) []
  | acquire (p : cLockFreePool) (A : List Nat) (h : Reachable width n p A) :
      Reachable width n (p.AcquireIdx).2
        (if (p.AcquireIdx).1 = p.NULL_IDX then A else (p.AcquireIdx).1 :: A)
  | release (p : cLockFreePool) (A : List Nat) (i : Nat) (h : Reachable width n p A)
      (hi : i ∈ A) : Reachable width n (p.ReleaseIdx i) (A.erase i)

/-- The pool invariant tied to the outstanding-acquisition list A: well-sized
storage, a capacity below NULL_IDX, no duplicated acquisitions, and a duplicate
free free-list holding exactly the non-acquired slots. -/
def PoolInv (p : cLockFreePool) (A : List Nat) : Prop :=
  p.slots.length = p.mCapacity ∧
  p.mCapacity ≤ p.NULL_IDX ∧
  A.Nodup ∧
  (∀ j ∈ A, j < p.mCapacity) ∧
  ∃ fl : List Nat, FreeChain p p.mHead.mIdx fl ∧ fl.Nodup ∧
    ∀ j, j ∈ fl ↔ (j < p.mCapacity ∧ j ∉ A)

lemma length_initSlots (width cap k : Nat) : (initSlots width cap k).length = cap := by
  simp [initSlots]

lemma getNode_initSlots (width cap m j : Nat) (hj : j < cap) (hd : tIndexTag) :
    cLockFreePool.GetNode ⟨width, cap, hd, initSlots width cap m⟩ j =
      (if j < m then ⟨⟨if j = 0 then width - 1 else j - 1, 0⟩⟩ else ⟨⟨0, 0⟩⟩) := by
  simp [cLockFreePool.GetNode, initSlots, List.getD_eq_getElem?_getD, hj]

lemma initSlots_zero (width cap : Nat) :
    initSlots width cap 0 = List.replicate cap ⟨⟨0, 0⟩⟩ := by
  apply List.ext_getElem
  · simp [initSlots]
  intro i h1 h2
  simp [initSlots]

lemma initSlots_set (width cap k : Nat) (_hk : k < cap) :
    (initSlots width cap k).set k ⟨⟨if k = 0 then width - 1 else k - 1, 0⟩⟩ =
      initSlots width cap (k + 1) := by
  apply List.ext_getElem
  · simp [initSlots]
  intro i h1 h2
  simp only [initSlots, List.getElem_set, List.getElem_map, List.getElem_range,
    List.length_set, List.length_map, List.length_range] at h1 h2 ⊢
  by_cases hik : k = i
  · subst hik
    simp
  · have : ¬ (i < k + 1 ∧ ¬ i < k) := by omega
    by_cases hlt : i < k
    · simp [hik, hlt, Nat.lt_succ_of_lt hlt]
    · have : ¬ i < k + 1 := by omega
      simp [hik, hlt, this]

lemma releaseAll_loop (width cap : Nat) (hcap : cap ≤ width - 1 - 1) :
    ∀ k, k ≤ cap →
      (List.range k).foldl
        (fun (q : cLockFreePool) (i : Nat) => (q.setNode i ⟨⟨q.NULL_IDX, 0⟩⟩).ReleasePtr (Int.ofNat i))
        ⟨width, cap, ⟨width - 1, 0⟩, List.replicate cap ⟨⟨0, 0⟩⟩⟩ =
      ⟨width, cap, (if k = 0 then ⟨width - 1, 0⟩ else ⟨k - 1, 0⟩), initSlots width cap k⟩ := by
  intro k
  induction k with
  | zero =>
      intro _
      simp [initSlots_zero]
  | succ k ih =>
      intro hk
      have hklt : k < cap := hk
      have hkw : k < width := by omega
      rw [List.range_succ, List.foldl_append, ih (Nat.le_of_lt hklt)]
      simp only [List.foldl_cons, List.foldl_nil]
      have hmod : ((Int.ofNat k) % ((width : Nat) : Int)).toNat = k := by
        have h2 : (Int.ofNat k) % ((width : Nat) : Int) = Int.ofNat k :=
          Int.emod_eq_of_lt (Int.ofNat_nonneg k) (Int.ofNat_lt.mpr hkw)
        rw [h2]
        simp
      have hlen : k < (initSlots width cap k).length := by
        rw [length_initSlots]; exact hklt
      simp only [cLockFreePool.ReleasePtr, cLockFreePool.setNode, cLockFreePool.NULL_IDX, hmod]
      simp only [cLockFreePool.ReleaseIdx, cLockFreePool.IsNull, cLockFreePool.GetNode,
        cLockFreePool.setNode]
      rw [if_neg (by omega)]
      simp only [List.getD_eq_getElem?_getD, List.getElem?_set_self hlen, Option.getD_some,
        List.set_set]
      have hset := initSlots_set width cap k hklt
      rw [cLockFreePool.mk.injEq]
      refine ⟨rfl, rfl, ?_, ?_⟩
      · by_cases hk0 : k = 0 <;> simp [hk0]
      · rw [show (if k = 0 then (⟨width - 1, 0⟩ : tIndexTag) else ⟨k - 1, 0⟩).mIdx =
              (if k = 0 then width - 1 else k - 1) from by
            by_cases hk0 : k = 0 <;> simp [hk0]]
        exact hset

/-- Closed form of a freshly constructed pool: capacity clamped to
width - 1 - 1, head at the last slot (or NULL_IDX when the capacity is zero),
and slot i linking down to i - 1 with slot 0 linking to NULL_IDX. -/
lemma mkPool_eq (width n : Nat) :
    mkPool width n =
      ⟨width, min n (width - 1 - 1),
       (if min n (width - 1 - 1) = 0 then ⟨width - 1, 0⟩ else ⟨min n (width - 1 - 1) - 1, 0⟩),
       initSlots width (min n (width - 1 - 1)) (min n (width - 1 - 1))⟩ := by
  have h := releaseAll_loop width (min n (width - 1 - 1)) (Nat.min_le_right _ _)
    (min n (width - 1 - 1)) le_rfl
  unfold mkPool cLockFreePool.AllocateStorage cLockFreePool.ReleaseAllPtrs
  simpa [cLockFreePool.NULL_IDX] using h

lemma mkPool_mCapacity (width n : Nat) : (mkPool width n).mCapacity = min n (width - 1 - 1) := by
  rw [mkPool_eq]

lemma mkPool_width (width n : Nat) : (mkPool width n).width = width := by
  rw [mkPool_eq]

lemma mkPool_slots_length (width n : Nat) :
    (mkPool width n).slots.length = (mkPool width n).mCapacity := by
  rw [mkPool_eq]
  simp [initSlots]

/-- FreeChain only inspects the capacity, the width and the nodes it walks
through, so it transfers to any pool agreeing on those. -/
lemma FreeChain_congr {p q : cLockFreePool} (hcap : p.mCapacity = q.mCapacity)
    (hw : p.width = q.width) :
    ∀ {x : Nat} {l : List Nat}, FreeChain p x l →
      (∀ j ∈ l, p.GetNode j = q.GetNode j) → FreeChain q x l := by
  intro x l h
  induction h with
  | nil =>
      intro _
      have hnull : p.NULL_IDX = q.NULL_IDX := by simp [cLockFreePool.NULL_IDX, hw]
      rw [hnull]
      exact FreeChain.nil
  | cons i rest hi hrest ih =>
      intro hj
      refine FreeChain.cons i rest (hcap ▸ hi) ?_
      have hgi : p.GetNode i = q.GetNode i := hj i (List.mem_cons_self i rest)
      rw [← hgi]
      exact ih fun j hjr => hj j (List.mem_cons_of_mem i hjr)

/-- The free list of a freshly constructed pool walks the slots in decreasing
index order: from any prefix length k the chain from slot k - 1 visits
k - 1, k - 2, ..., 0 and ends at NULL_IDX. -/
lemma freeChain_init_aux (width cap : Nat) (hd : tIndexTag) :
    ∀ k, k ≤ cap →
      FreeChain ⟨width, cap, hd, initSlots width cap cap⟩
        (if k = 0 then width - 1 else k - 1) ((List.range k).reverse) := by
  intro k
  induction k with
  | zero =>
      intro _
      have h := FreeChain.nil (p := ⟨width, cap, hd, initSlots width cap cap⟩)
      simpa [cLockFreePool.NULL_IDX] using h
  | succ k ih =>
      intro hk
      have hklt : k < cap := hk
      rw [List.range_succ, List.reverse_append]
      have hget := getNode_initSlots width cap cap k hklt hd
      rw [if_pos hklt] at hget
      simp only [List.reverse_cons, List.reverse_nil, List.nil_append, List.singleton_append,
        Nat.succ_ne_zero, if_neg, Nat.succ_sub_one]
      refine FreeChain.cons k _ hklt ?_
      rw [hget]
      exact ih (Nat.le_of_lt hklt)

lemma getD_set_self {α : Type} (l : List α) (k : Nat) (v d : α) (h : k < l.length) :
    (l.set k v).getD k d = v := by
  simp [List.getD_eq_getElem?_getD, List.getElem?_set_self, h]

lemma getD_set_ne {α : Type} (l : List α) {k j : Nat} (v d : α) (h : k ≠ j) :
    (l.set k v).getD j d = l.getD j d := by
  simp [List.getD_eq_getElem?_getD, List.getElem?_set_ne, h]

/-- The invariant holds of a freshly constructed pool: nothing is outstanding
and the free list is the full slot range in decreasing order. -/
lemma mkPool_poolInv (width n : Nat) : PoolInv (mkPool width n) [] := by
  have hminw : min n (width - 1 - 1) ≤ width - 1 := by
    have := Nat.min_le_right n (width - 1 - 1)
    omega
  refine ⟨mkPool_slots_length width n, ?_, List.nodup_nil, by simp, ?_⟩
  · rw [mkPool_eq]
    exact hminw
  · refine ⟨(List.range (min n (width - 1 - 1))).reverse, ?_, ?_, ?_⟩
    · rw [mkPool_eq]
      have h := freeChain_init_aux width (min n (width - 1 - 1))
        (if min n (width - 1 - 1) = 0 then ⟨width - 1, 0⟩ else ⟨min n (width - 1 - 1) - 1, 0⟩)
        (min n (width - 1 - 1)) le_rfl
      by_cases h0 : min n (width - 1 - 1) = 0
      · simp only [h0, if_pos] at h ⊢
        simpa using h
      · simp only [if_neg h0] at h ⊢
        exact h
    · simp [List.nodup_range]
    · intro j
      rw [mkPool_mCapacity]
      simp [List.mem_range]

/-- A chain with no members starts at the literal NULL_IDX. -/
lemma FreeChain_nil_eq {p : cLockFreePool} {x : Nat} (h : FreeChain p x []) :
    x = p.NULL_IDX := by
  cases h
  rfl

/-- Inversion of a non-trivial chain: it starts at its first member, that
member is in range, and the tail is the chain from its next link. -/
lemma FreeChain_cons_inv {p : cLockFreePool} {x i : Nat} {rest : List Nat}
    (h : FreeChain p x (i :: rest)) :
    x = i ∧ i < p.mCapacity ∧ FreeChain p (p.GetNode i).mNext.mIdx rest := by
  cases h
  exact ⟨rfl, by assumption, by assumption⟩

/-- The invariant is preserved by one AcquireIdx step together with recording
the returned index (when the acquisition succeeds). -/
lemma poolInv_acquire {p : cLockFreePool} {A : List Nat} (ih : PoolInv p A) :
    PoolInv (p.AcquireIdx).2
      (if (p.AcquireIdx).1 = p.NULL_IDX then A else (p.AcquireIdx).1 :: A) := by
  obtain ⟨hlen, hcapN, hAnd, hAb, fl, hchain, hflnd, hmem⟩ := ih
  by_cases hnull : p.IsNull p.mHead.mIdx
  · simp only [cLockFreePool.AcquireIdx, if_pos hnull, if_pos rfl]
    exact ⟨hlen, hcapN, hAnd, hAb, fl, hchain, hflnd, hmem⟩
  · rcases fl with _ | ⟨i, rest⟩
    · exfalso
      apply hnull
      have hx := FreeChain_nil_eq hchain
      simp only [cLockFreePool.IsNull]
      omega
    · obtain ⟨hx, hi, hrest⟩ := FreeChain_cons_inv hchain
      subst hx
      have hne : p.mHead.mIdx ≠ p.NULL_IDX := by
        simp only [cLockFreePool.IsNull] at hnull
        omega
      have hiA : p.mHead.mIdx ∉ A := ((hmem _).mp (List.mem_cons_self _ _)).2
      have hirest : p.mHead.mIdx ∉ rest := (List.nodup_cons.mp hflnd).1
      simp only [cLockFreePool.AcquireIdx, if_neg hnull]
      rw [if_neg hne]
      refine ⟨hlen, hcapN, List.nodup_cons.mpr ⟨hiA, hAnd⟩, ?_, rest, ?_, ?_, ?_⟩
      · intro j hj
        rcases List.mem_cons.mp hj with rfl | hj2
        · exact hi
        · exact hAb j hj2
      · refine FreeChain_congr ?_ ?_ hrest fun j _ => rfl
        · rfl
        · rfl
      · exact (List.nodup_cons.mp hflnd).2
      · intro j
        constructor
        · intro hjr
          have hjmem := (hmem j).mp (List.mem_cons_of_mem _ hjr)
          refine ⟨hjmem.1, ?_⟩
          intro hjA
          rcases List.mem_cons.mp hjA with hji | hjA2
          · exact hirest (hji ▸ hjr)
          · exact hjmem.2 hjA2
        · rintro ⟨hjc, hjA⟩
          have hj2 : j ∈ p.mHead.mIdx :: rest :=
            (hmem j).mpr ⟨hjc, fun hA => hjA (List.mem_cons_of_mem _ hA)⟩
          rcases List.mem_cons.mp hj2 with hji | h2
          · exact absurd (hji ▸ List.mem_cons_self p.mHead.mIdx A) hjA
          · exact h2

/-- The invariant is preserved by releasing an outstanding slot. -/
lemma poolInv_release {p : cLockFreePool} {A : List Nat} {i : Nat} (ih : PoolInv p A)
    (hi : i ∈ A) : PoolInv (p.ReleaseIdx i) (A.erase i) := by
  obtain ⟨hlen, hcapN, hAnd, hAb, fl, hchain, hflnd, hmem⟩ := ih
  have hic : i < p.mCapacity := hAb i hi
  have hilen : i < p.slots.length := by omega
  have hinotfl : i ∉ fl := fun hf => ((hmem i).mp hf).2 hi
  simp only [cLockFreePool.ReleaseIdx, cLockFreePool.IsNull, cLockFreePool.setNode]
  rw [if_neg (by omega)]
  refine ⟨?_, hcapN, hAnd.erase i, ?_, i :: fl, ?_, List.nodup_cons.mpr ⟨hinotfl, hflnd⟩, ?_⟩
  · simpa using hlen
  · intro j hj
    exact hAb j (List.mem_of_mem_erase hj)
  · refine FreeChain.cons i fl hic ?_
    have hget : cLockFreePool.GetNode
        ⟨p.width, p.mCapacity, ⟨i, p.mHead.mTag⟩,
          p.slots.set i ⟨⟨p.mHead.mIdx, (p.GetNode i).mNext.mTag⟩⟩⟩ i =
        ⟨⟨p.mHead.mIdx, (p.GetNode i).mNext.mTag⟩⟩ := by
      simp only [cLockFreePool.GetNode]
      exact getD_set_self _ _ _ _ hilen
    rw [hget]
    refine FreeChain_congr ?_ ?_ hchain ?_
    · rfl
    · rfl
    intro j hj
    have hji : j ≠ i := fun h => hinotfl (h ▸ hj)
    simp only [cLockFreePool.GetNode]
    exact (getD_set_ne _ _ _ fun h => hji h.symm).symm
  · intro j
    rw [List.mem_cons]
    constructor
    · rintro (rfl | hjf)
      · exact ⟨hic, fun hje => (hAnd.mem_erase_iff.mp hje).1 rfl⟩
      · have hjmem := (hmem j).mp hjf
        exact ⟨hjmem.1, fun hje => hjmem.2 (List.mem_of_mem_erase hje)⟩
    · rintro ⟨hjc, hje⟩
      by_cases hji : j = i
      · exact Or.inl hji
      · exact Or.inr ((hmem j).mpr ⟨hjc, fun hjA => hje (hAnd.mem_erase_iff.mpr ⟨hji, hjA⟩)⟩)

/-- Every reachable pool state satisfies the invariant. -/
lemma reachable_poolInv {width n : Nat} {p : cLockFreePool} {A : List Nat}
    (h : Reachable width n p A) : PoolInv p A := by
  induction h with
  | init => exact mkPool_poolInv width n
  | acquire p A h ih => exact poolInv_acquire ih
  | release p A i h hi ih => exact poolInv_release ih hi

/-- C1: a stack on a pool of capacity 3, starting empty and operated
single-threaded, accepts Push 42, Push 666, Push 1337, rejects a fourth Push,
then Pops 1337, 666, 42 in LIFO order, and a fourth Pop returns false. -/
theorem stack_single_threaded_scenario :
    (stackDemo0.Push 42).1 = true ∧
    (stackDemo1.Push 666).1 = true ∧
    (stackDemo2.Push 1337).1 = true ∧
    (stackDemo3.Push 1138).1 = false ∧
    stackDemoPop1.1 = true ∧ stackDemoPop1.2.2 = 1337 ∧
    stackDemoPop2.1 = true ∧ stackDemoPop2.2.2 = 666 ∧
    stackDemoPop3.1 = true ∧ stackDemoPop3.2.2 = 42 ∧
    stackDemoPop4.1 = false := by
  decide

/-- C2: an MPMC queue on a pool of capacity 3 + 1 (one slot is the permanent
sentinel), starting empty and operated single-threaded, accepts Push 42,
Push 666, Push 1337, rejects a fourth Push, then Pops 42, 666, 1337 in FIFO
order, and a fourth Pop returns false. -/
theorem queue_single_threaded_scenario :
    (queueDemo0.Push 42).1 = true ∧
    (queueDemo1.Push 666).1 = true ∧
    (queueDemo2.Push 1337).1 = true ∧
    (queueDemo3.Push 1138).1 = false ∧
    queueDemoPop1.1 = true ∧ queueDemoPop1.2.2 = 42 ∧
    queueDemoPop2.1 = true ∧ queueDemoPop2.2.2 = 666 ∧
    queueDemoPop3.1 = true ∧ queueDemoPop3.2.2 = 1337 ∧
    queueDemoPop4.1 = false := by
  decide

/-- C3: in every pool state reachable by a legal sequence of Acquire and
Release operations from a freshly constructed pool, there is a finite,
duplicate-free chain of next links from the head that terminates at NULL_IDX
(so the free list has no cycle), and a slot lies on that chain exactly when it
is free, i.e. not among the outstanding acquisitions A. -/
theorem pool_freelist_invariant {width n : Nat} {p : cLockFreePool} {A : List Nat}
    (h : Reachable width n p A) :
    ∃ fl : List Nat, FreeChain p p.mHead.mIdx fl ∧ fl.Nodup ∧
      ∀ j, j ∈ fl ↔ (j < p.mCapacity ∧ j ∉ A) :=
  (reachable_poolInv h).2.2.2.2

theorem pool_freelist_invariant_witness :
    ∃ fl : List Nat, FreeChain (mkPool 16 2) (mkPool 16 2).mHead.mIdx fl ∧ fl.Nodup ∧
      ∀ j, j ∈ fl ↔ (j < (mkPool 16 2).mCapacity ∧ j ∉ ([] : List Nat)) :=
  pool_freelist_invariant (Reachable.init)

/-- C4 counterexample: the claim says a pool of 8-byte-or-larger elements can
reach capacity 2^32 - 1, i.e. GetCapacity = min(n, 2^32 - 1); but requesting
2^32 - 1 slots yields capacity 2^32 - 2, because AllocateStorage clamps to
numeric_limits max - 1. -/
theorem pool_capacity_claim_counterexample :
    cLockFreePool.GetCapacity (mkPool (2 ^ 32) (2 ^ 32 - 1)) ≠ 2 ^ 32 - 1 := by
  rw [cLockFreePool.GetCapacity, mkPool_mCapacity]
  rw [Nat.min_eq_right (by norm_num)]
  norm_num

/-- C4 (amended): the constructed capacity is min(n, 2^32 - 2) for the 32-bit
index type and min(n, 2^16 - 2) for the 16-bit one (one less than the claim
said), while NULL_IDX is the maximum index value 2^32 - 1, resp. 2^16 - 1. -/
theorem pool_capacity_clamped (n : Nat) :
    cLockFreePool.GetCapacity (mkPool (2 ^ 32) n) = min n (2 ^ 32 - 2) ∧
    cLockFreePool.GetCapacity (mkPool (2 ^ 16) n) = min n (2 ^ 16 - 2) ∧
    (mkPool (2 ^ 32) n).NULL_IDX = 2 ^ 32 - 1 ∧
    (mkPool (2 ^ 16) n).NULL_IDX = 2 ^ 16 - 1 := by
  refine ⟨?_, ?_, ?_, ?_⟩
  · rw [cLockFreePool.GetCapacity, mkPool_mCapacity]
    norm_num
  · rw [cLockFreePool.GetCapacity, mkPool_mCapacity]
    norm_num
  · rw [cLockFreePool.NULL_IDX, mkPool_width]
  · rw [cLockFreePool.NULL_IDX, mkPool_width]

/-- C6: a successful AcquireIdx (the head is not null) replaces the head with
the tag incremented by one in the tag's modular arithmetic, returning the old
head index; ReleaseIdx always leaves the head tag unchanged. -/
theorem pool_tag_policy :
    (∀ p : cLockFreePool, ¬ p.IsNull p.mHead.mIdx →
        (p.AcquireIdx).2.mHead.mTag = (p.mHead.mTag + 1) % p.width ∧
        (p.AcquireIdx).1 = p.mHead.mIdx) ∧
    ∀ (p : cLockFreePool) (i : Nat), (p.ReleaseIdx i).mHead.mTag = p.mHead.mTag := by
  constructor
  · intro p h
    simp [cLockFreePool.AcquireIdx, h]
  · intro p i
    by_cases h : p.IsNull i
    · simp [cLockFreePool.ReleaseIdx, h]
    · simp [cLockFreePool.ReleaseIdx, h, cLockFreePool.setNode]

theorem pool_tag_policy_witness :
    ((mkPool 16 3).AcquireIdx).2.mHead.mTag = ((mkPool 16 3).mHead.mTag + 1) % (mkPool 16 3).width ∧
    ((mkPool 16 3).ReleaseIdx 1).mHead.mTag = (mkPool 16 3).mHead.mTag :=
  ⟨(pool_tag_policy.1 (mkPool 16 3) (by decide)).1,
   pool_tag_policy.2 (mkPool 16 3) 1⟩

/-- C8 counterexample: on a freshly constructed pool of capacity 3 the first
Acquire returns slot 2, not slot 0 as the claim says. -/
theorem init_freelist_order_counterexample :
    ((mkPool (2 ^ 32) 3).AcquireIdx).1 = 2 ∧ ((mkPool (2 ^ 32) 3).AcquireIdx).1 ≠ 0 := by
  constructor
  · rw [mkPool_eq]
    decide
  · rw [mkPool_eq]
    decide

/-- C8 (amended): immediately after construction every slot is on the free
list, but in decreasing index order: the chain from the head visits
cap - 1, cap - 2, ..., 0 (the reverse of List.range), and consequently the
first Acquire returns slot cap - 1, not slot 0. -/
theorem init_freelist_reverse_order (width n : Nat) :
    FreeChain (mkPool width n) (mkPool width n).mHead.mIdx
      ((List.range (mkPool width n).mCapacity).reverse) ∧
    (0 < (mkPool width n).mCapacity →
      ((mkPool width n).AcquireIdx).1 = (mkPool width n).mCapacity - 1) := by
  constructor
  · rw [mkPool_mCapacity, mkPool_eq]
    have h := freeChain_init_aux width (min n (width - 1 - 1))
      (if min n (width - 1 - 1) = 0 then ⟨width - 1, 0⟩ else ⟨min n (width - 1 - 1) - 1, 0⟩)
      (min n (width - 1 - 1)) le_rfl
    by_cases h0 : min n (width - 1 - 1) = 0
    · simp only [h0, if_pos] at h ⊢
      simpa using h
    · simp only [if_neg h0] at h ⊢
      exact h
  · intro hpos
    rw [mkPool_mCapacity] at hpos ⊢
    rw [mkPool_eq]
    have h0 : min n (width - 1 - 1) ≠ 0 := by omega
    simp only [if_neg h0]
    have hnn : ¬ (min n (width - 1 - 1) ≤ min n (width - 1 - 1) - 1) := by omega
    simp [cLockFreePool.AcquireIdx, cLockFreePool.IsNull, hnn]

theorem init_freelist_reverse_order_witness :
    FreeChain (mkPool 16 3) (mkPool 16 3).mHead.mIdx
      ((List.range (mkPool 16 3).mCapacity).reverse) ∧
    ((mkPool 16 3).AcquireIdx).1 = (mkPool 16 3).mCapacity - 1 :=
  ⟨(init_freelist_reverse_order 16 3).1,
   (init_freelist_reverse_order 16 3).2 (by decide)⟩

/-- C9: a pool constructed with capacity 0 reports Empty and Full at the same
time, and AcquirePtr yields the null pointer. -/
theorem pool_zero_capacity (width : Nat) :
    (mkPool width 0).Empty = true ∧ (mkPool width 0).Full = true ∧
      ((mkPool width 0).AcquirePtr).1 = none := by
  have h0 : mkPool width 0 = ⟨width, 0, ⟨width - 1, 0⟩, []⟩ := by
    rw [mkPool_eq]
    simp [initSlots]
  rw [h0]
  refine ⟨?_, ?_, ?_⟩
  · simp [cLockFreePool.Empty, cLockFreePool.IsNull]
  · simp [cLockFreePool.Full, cLockFreePool.FullFrom]
  · simp [cLockFreePool.AcquirePtr, cLockFreePool.AcquireIdx, cLockFreePool.IsNull,
      cLockFreePool.NULL_IDX]

/-- C10: releasing a pointer whose computed slot index (pointer difference
truncated to the index type) is at or beyond the capacity leaves the entire
pool state unchanged: ReleaseIdx bails out on IsNull before touching anything. -/
theorem releasePtr_out_of_range_noop (p : cLockFreePool) (d : Int)
    (h : p.mCapacity ≤ (d % ((p.width : Nat) : Int)).toNat) :
    p.ReleasePtr d = p := by
  simp only [cLockFreePool.ReleasePtr, cLockFreePool.ReleaseIdx]
  rw [if_pos (show p.IsNull ((d % ((p.width : Nat) : Int)).toNat) from h)]

theorem releasePtr_out_of_range_noop_witness :
    (mkPool 16 3).ReleasePtr 7 = mkPool 16 3 :=
  releasePtr_out_of_range_noop (mkPool 16 3) 7 (by decide)

/-- C5: on an empty container (stack, MPMC queue, MPSC queue), Pop returns
false, leaves the container unchanged and never writes the out-parameter: the
returned out value is exactly the value passed in. -/
theorem pop_on_empty_leaves_out_untouched :
    (∀ (s : cLockFreeStack) (out : Int), s.Empty = true → s.Pop out = (false, s, out)) ∧
    (∀ (q : cLockFreeQueue) (out : Int), q.Empty = true → q.Pop out = (false, q, out)) ∧
    ∀ (m : cMPSCLockFreeQueue) (out : Int), m.Empty = true → m.Pop out = (false, m, out) := by
  refine ⟨?_, ?_, ?_⟩
  · intro s out h
    rw [cLockFreeStack.Empty, Option.isNone_iff_eq_none] at h
    simp [cLockFreeStack.Pop, h]
  · intro q out h
    rw [cLockFreeQueue.Empty, Option.isNone_iff_eq_none] at h
    cases hf : q.mFront.GetPtr with
    | none =>
        rw [hf] at h
        simp [cLockFreeQueue.Pop, hf, h]
    | some fi =>
        rw [hf] at h
        simp [cLockFreeQueue.Pop, hf, h]
  · intro m out h
    rw [cMPSCLockFreeQueue.Empty, Option.isNone_iff_eq_none] at h
    simp [cMPSCLockFreeQueue.Pop, h]

theorem pop_on_empty_witness :
    (mkStack (mkPool (2 ^ 32) 1)).Pop 7 = (false, mkStack (mkPool (2 ^ 32) 1), 7) ∧
    (mkQueue (mkPool (2 ^ 32) 2)).Pop 7 = (false, mkQueue (mkPool (2 ^ 32) 2), 7) ∧
    (mkMPSCQueue (mkPool (2 ^ 32) 2)).Pop 7 = (false, mkMPSCQueue (mkPool (2 ^ 32) 2), 7) :=
  ⟨pop_on_empty_leaves_out_untouched.1 _ 7 (by decide),
   pop_on_empty_leaves_out_untouched.2.1 _ 7 (by decide),
   pop_on_empty_leaves_out_untouched.2.2 _ 7 (by decide)⟩

lemma stack_Push_eq_of_acquire {s : cLockFreeStack} {idx : Nat} {p1 : cLockFreePool} (v : Int)
    (h : s.mNodePool.AcquirePtr = (some idx, p1)) :
    s.Push v = (true, cLockFreeStack.LinkTopNodeAtomically
      { s with mNodePool := p1, nodes := s.nodes.set idx ⟨v, ⟨none, 0⟩⟩ } idx) := by
  unfold cLockFreeStack.Push
  rw [h]
  rfl

lemma LinkTopNodeAtomically_mTop (s : cLockFreeStack) (idx : Nat) (h : idx < s.nodes.length) :
    (s.LinkTopNodeAtomically idx).mTop = ⟨some idx, s.mTop.GetTag⟩ := by
  simp only [cLockFreeStack.LinkTopNodeAtomically, cLockFreeStack.setNode,
    cLockFreeStack.getNode]
  rw [getD_set_self _ _ _ _ h]

/-- C7: a successful Pop replaces the top with its tag incremented by one in
the 16-bit tag arithmetic, while a successful Push installs a top that carries
the very tag previously stored in mTop.  For Push the success is characterised
by the pool head being non-null; the two side conditions state the physical
well-formedness of the shared slab (the node view covers the storage and the
capacity is representable), which hold of every constructed pool. -/
theorem stack_tag_policy :
    (∀ (s : cLockFreeStack) (out : Int) (i : Nat), s.mTop.GetPtr = some i →
        (s.Pop out).1 = true ∧
        (s.Pop out).2.1.mTop.GetTag = (s.mTop.GetTag + 1) % tagMod) ∧
    ∀ (s : cLockFreeStack) (v : Int),
        s.nodes.length = s.mNodePool.mCapacity →
        s.mNodePool.mCapacity ≤ s.mNodePool.NULL_IDX →
        ¬ s.mNodePool.IsNull s.mNodePool.mHead.mIdx →
        (s.Push v).1 = true ∧ (s.Push v).2.mTop.GetTag = s.mTop.GetTag := by
  constructor
  · intro s out i h
    constructor <;> simp [cLockFreeStack.Pop, h]
  · intro s v hlen hcap hnull
    have hidxcap : s.mNodePool.mHead.mIdx < s.mNodePool.mCapacity := by
      simpa [cLockFreePool.IsNull] using hnull
    have hne : s.mNodePool.mHead.mIdx ≠ s.mNodePool.NULL_IDX := by
      omega
    have hacq : s.mNodePool.AcquirePtr =
        (some s.mNodePool.mHead.mIdx, (s.mNodePool.AcquireIdx).2) := by
      simp only [cLockFreePool.AcquirePtr, cLockFreePool.AcquireIdx, if_neg hnull]
      rw [if_pos hne]
    rw [stack_Push_eq_of_acquire v hacq]
    refine ⟨rfl, ?_⟩
    have hidx : s.mNodePool.mHead.mIdx <
        (s.nodes.set s.mNodePool.mHead.mIdx ⟨v, ⟨none, 0⟩⟩).length := by
      simpa using hlen ▸ hidxcap
    rw [LinkTopNodeAtomically_mTop _ _ hidx]

theorem stack_tag_policy_witness :
    ((stackDemo3.Pop 0).1 = true ∧
      (stackDemo3.Pop 0).2.1.mTop.GetTag = (stackDemo3.mTop.GetTag + 1) % tagMod) ∧
    ((stackDemo0.Push 42).1 = true ∧
      (stackDemo0.Push 42).2.mTop.GetTag = stackDemo0.mTop.GetTag) :=
  ⟨stack_tag_policy.1 stackDemo3 0 0 (by decide),
   stack_tag_policy.2 stackDemo0 42 (by decide) (by decide) (by decide)⟩
